import Mathlib

/-!
Shallow embedding of the AgenticRAG backend document pipeline
(`backend/app/services/document_processor.py` and
`backend/app/services/rag_service.py`).

Texts are modelled as `List Char`; Python string slicing `text[a:b]`
(non-negative indices) is `pySlice`.  The chunking loop of
`DocumentProcessor._chunk_text` is a fuel-indexed recursion: `none`
means the loop did not finish within the given fuel.
-/

/-- Python slice `xs[a:b]` for non-negative `a ≤ b`. -/
def pySlice (xs : List Char) (a b : Nat) : List Char :=
  (xs.drop a).take (b - a)

/-- The `while start < text_length` loop of `DocumentProcessor._chunk_text`
(document_processor.py lines 119-128), with `size = self.chunk_size`,
`overlap = self.chunk_overlap`.  One unit of fuel per iteration; `none`
signals fuel exhaustion (the Python loop would still be running). -/
def chunkLoop (size overlap : Nat) (text : List Char) : Nat → Nat → Option (List (List Char))
  | 0, _ => none
  | fuel + 1, start =>
    if start < text.length then
      if min (start + size) text.length = text.length then
        some [pySlice text start (min (start + size) text.length)]
      else
        match chunkLoop size overlap text fuel
            (min (start + size) text.length - min overlap (size / 2)) with
        | none => none
        | some rest => some (pySlice text start (min (start + size) text.length) :: rest)
    else
      some []

/-- Model of `DocumentProcessor._chunk_text` (document_processor.py lines 110-129):
empty text returns `[]`; otherwise the loop runs with starting index 0.
The fuel `text.length + 1` covers every terminating run of the Python
loop, whose window start is confined to `[0, text.length)` and strictly
increases whenever the step is positive. -/
def chunk_text (size overlap : Nat) (text : List Char) : Option (List (List Char)) :=
  if text.isEmpty then some [] else chunkLoop size overlap text (text.length + 1) 0

/-- The per-iteration advancement of the window start in `_chunk_text`:
`start = end - min(self.chunk_overlap, self.chunk_size // 2)` with
`end = start + size` on a non-final iteration. -/
def advance (size overlap : Nat) : Nat :=
  size - min overlap (size / 2)

/-- The chunking loop terminates on the given input (some finite fuel
makes it return). -/
def ChunkTerm (size overlap : Nat) (text : List Char) : Prop :=
  ∃ fuel, (chunkLoop size overlap text fuel 0).isSome = true

/-- Concatenation of the non-overlapping prefix (of length `step`) of every
chunk but the last, followed by the whole last chunk. -/
def reconstruct (step : Nat) : List (List Char) → List Char
  | [] => []
  | [c] => c
  | c :: rest => c.take step ++ reconstruct step rest

/-- Python `str.strip()` whitespace test for a single ASCII character
(space, tab, newline, carriage return, vertical tab, form feed). -/
def isWS (c : Char) : Bool :=
  c == ' ' || c == '\t' || c == '\n' || c == '\r' || c.toNat == 11 || c.toNat == 12

/-- Python `text.strip()`: remove leading and trailing whitespace. -/
def stripChars (s : List Char) : List Char :=
  ((s.dropWhile isWS).reverse.dropWhile isWS).reverse

/-- Outcomes of the three extraction tiers inside
`DocumentProcessor._process_pdf` (document_processor.py lines 232-321).
Each field is the observable result of one tier when it runs: `ok s` means
the tier completed and appended the text `s` (possibly empty), `error`
means the tier raised and was caught by its local handler.  The tiers call
external libraries (PyMuPDF, PyPDF2, pdf2image/Tesseract), so their
outcomes are inputs of the model. -/
structure PdfTiers where
  fitz : Except String (List Char)
  pypdf : Except String (List Char)
  ocr : Except String (List Char)

/-- The sentinel returned by `_process_pdf` when no tier yields text
(document_processor.py line 315). -/
def unableSentinel (name : String) : List Char :=
  "[UNABLE TO EXTRACT TEXT FROM DOCUMENT: ".data ++ name.data ++ "]".data

/-- Control flow of `DocumentProcessor._process_pdf`
(document_processor.py lines 232-321): tier 1 (PyMuPDF) returns its text
when that text has non-whitespace content; otherwise tier 2 (PyPDF2)
appends, then, if the accumulated text is still blank, tier 3 (full OCR)
appends; a still-blank result becomes the sentinel.  A tier that raises is
caught locally and contributes nothing.  The function is total: every
combination of tier outcomes yields a string. -/
def process_pdf (name : String) (t : PdfTiers) : List Char :=
  let t1 := match t.fitz with
    | Except.ok s => s
    | Except.error _ => []
  if stripChars t1 ≠ [] then t1
  else
    let t2 := match t.pypdf with
      | Except.ok s => t1 ++ s
      | Except.error _ => t1
    let t3 := if stripChars t2 = [] then
        match t.ocr with
        | Except.ok s => t2 ++ s
        | Except.error _ => t2
      else t2
    if stripChars t3 = [] then unableSentinel name else t3

/-- Observable outcomes of the two steps of `DocumentProcessor._process_csv`
(document_processor.py lines 378-445): `parsed` is the result of the whole
pandas try-block (parse plus report rendering, external library), `raw` is
the result of re-reading the file as text with errors="replace" (decoding
cannot fail, but the I/O itself can raise). -/
structure CsvInput where
  parsed : Except String (List Char)
  raw : Except String (List Char)

/-- The marker prefix of the CSV raw-content fallback
(document_processor.py line 442). -/
def rawCsvMarker : List Char := "[RAW CSV CONTENT]\n".data

/-- Control flow of `DocumentProcessor._process_csv`
(document_processor.py lines 437-445): on pandas failure fall back to the
raw read prefixed with the marker; if the raw read also raises, re-raise
the original pandas exception (`raise e`). -/
def process_csv (c : CsvInput) : Except String (List Char) :=
  match c.parsed with
  | Except.ok report => Except.ok report
  | Except.error e =>
    match c.raw with
    | Except.ok content => Except.ok (rawCsvMarker ++ content)
    | Except.error _ => Except.error e

/-- Observable outcomes inside `DocumentProcessor._process_docx`
(document_processor.py lines 323-367): `bulk` is the outcome of
`docx2txt.process` (which extracts text and drops embedded images into the
scratch directory), `imageTexts` the OCR blocks appended by the per-image
loop (errors of each image are caught locally), `fallback` the outcome of
the python-docx paragraph join. -/
structure DocxRun where
  bulk : Except String (List Char)
  imageTexts : List (List Char)
  fallback : Except String (List Char)

/-- Control flow of `DocumentProcessor._process_docx`
(document_processor.py lines 323-367).  Returns the extraction result and
whether the scratch directory created by `tempfile.mkdtemp()` still exists
afterwards.  On the success path the directory is removed by
`shutil.rmtree` (line 346, before the empty-text fallback); on the path
where `docx2txt.process` raises, the outer handler retries with python-docx
and returns (or re-raises) without any cleanup, so the directory remains. -/
def process_docx (r : DocxRun) : Except String (List Char) × Bool :=
  match r.bulk with
  | Except.error e =>
    (match r.fallback with
     | Except.ok t => Except.ok t
     | Except.error _ => Except.error e, true)
  | Except.ok text0 =>
    let text1 := r.imageTexts.foldl (fun a b => a ++ b) text0
    let text2 := if stripChars text1 = [] then
        match r.fallback with
        | Except.ok t => t
        | Except.error _ => text1
      else text1
    (Except.ok text2, false)

/-- Metadata values: Python scalars appearing in chunk metadata (strings
and integers). -/
inductive Val where
  | str (v : String)
  | nat (v : Nat)
deriving DecidableEq

/-- A Python dict with string keys, as an ordered association list with
unique keys (insertion order). -/
abbrev Dict := List (String × Val)

/-- Dict lookup (`d[k]` / `d.get(k)`). -/
def dlookup : Dict → String → Option Val
  | [], _ => none
  | (k, v) :: rest, key => if k = key then some v else dlookup rest key

/-- Adding `key: v` while building a dict literal (`{**d, key: v}`): an
existing key keeps its position and gets the new value, a new key is
appended. -/
def dinsert (d : Dict) (key : String) (v : Val) : Dict :=
  if (dlookup d key).isSome then
    d.map (fun p => if p.1 = key then (key, v) else p)
  else
    d ++ [(key, v)]

/-- Splicing a dict into a dict literal (`{**d, **kvs}`). -/
def dextend (d : Dict) (kvs : Dict) : Dict :=
  kvs.foldl (fun acc p => dinsert acc p.1 p.2) d

/-- ASCII lowering of one character, the effect of Python `str.lower()` on
file extensions. -/
def lowerChar (c : Char) : Char :=
  if 65 ≤ c.toNat ∧ c.toNat ≤ 90 then Char.ofNat (c.toNat + 32) else c

/-- Python `s.lower()` on an ASCII string. -/
def lowerStr (s : String) : String := String.mk (s.data.map lowerChar)

/-- Python `s[1:]` (used to strip the dot of a file extension,
document_processor.py line 89). -/
def dropDot (s : String) : String := String.mk (s.data.drop 1)

/-- The keys of `DocumentProcessor.supported_formats`
(document_processor.py lines 49-55). -/
def supported_formats : List String := [".pdf", ".docx", ".doc", ".txt", ".csv"]

/-- Errors `DocumentProcessor.process` can raise (document_processor.py
lines 67-81): `FileNotFoundError`, `ValueError` for an unsupported format
and `ValueError` when the extractor raises. -/
inductive ProcErr where
  | fileNotFound (path : String)
  | unsupportedFormat (ext : String)
  | failedToProcess (msg : String)
deriving DecidableEq

/-- The input of `DocumentProcessor.process`: the `pathlib.Path` views of
the file (`name`, `stem`, `suffix`), whether it exists, and the outcome the
selected format extractor would produce on it. -/
structure PFile where
  name : String
  stem : String
  suffix : String
  fexists : Bool
  extract : Except String (List Char)

/-- One element of the list returned by `DocumentProcessor.process`
(document_processor.py lines 103-106). -/
structure ChunkRec where
  content : List Char
  metadata : Dict
deriving DecidableEq

/-- The chunk-specific metadata dict of chunk `i`
(document_processor.py lines 97-102): the base metadata extended with
`chunk_id`, `chunk_index` and `total_chunks`. -/
def chunkMeta (stem : String) (base : Dict) (total i : Nat) : Dict :=
  dinsert (dinsert (dinsert base
    "chunk_id" (Val.str (stem ++ "_" ++ toString i)))
    "chunk_index" (Val.nat i))
    "total_chunks" (Val.nat total)

/-- The `for i, chunk in enumerate(chunks)` loop of
`DocumentProcessor.process` (document_processor.py lines 95-106). -/
def buildChunks (stem : String) (base : Dict) (total : Nat) :
    Nat → List (List Char) → List ChunkRec
  | _, [] => []
  | i, c :: rest =>
    { content := c, metadata := chunkMeta stem base total i } ::
      buildChunks stem base total (i + 1) rest

/-- Model of `DocumentProcessor.process` (document_processor.py lines 57-108):
existence check, supported-format check on the lowered suffix, extraction,
chunking, metadata assembly.  `now` is `datetime.utcnow().isoformat()`.
`none` propagates a non-terminating chunking loop. -/
def process (size overlap : Nat) (f : PFile) (metadata : Dict) (now : String) :
    Option (Except ProcErr (List ChunkRec)) :=
  if f.fexists = false then
    some (Except.error (ProcErr.fileNotFound f.name))
  else if lowerStr f.suffix ∈ supported_formats then
    match f.extract with
    | Except.error e => some (Except.error (ProcErr.failedToProcess e))
    | Except.ok text =>
      match chunk_text size overlap text with
      | none => none
      | some chunks =>
        some (Except.ok (buildChunks f.stem
          (dextend [("source", Val.str f.name),
                    ("file_type", Val.str (dropDot (lowerStr f.suffix))),
                    ("processing_date", Val.str now)] metadata)
          chunks.length 0 chunks))
  else
    some (Except.error (ProcErr.unsupportedFormat (lowerStr f.suffix)))

/-- One `collection.add(documents=..., metadatas=..., ids=...)` call made
by `RAGService.add_document` (rag_service.py lines 75-79). -/
structure Batch where
  ids : List String
  docs : List (List Char)
  metas : List Dict
deriving DecidableEq

/-- Python `range(0, n, bs)` for `bs > 0` (rag_service.py line 70). -/
def rangeStep (n bs : Nat) : List Nat :=
  (List.range ((n + bs - 1) / bs)).map (fun k => k * bs)

/-- Model of `RAGService.add_document` (rag_service.py lines 37-82): process the
document, return `[]` on no chunks, otherwise draw one uuid per chunk and
add everything to the collection in batches of 100.  The second component
is the trace of `collection.add` calls (the vector-store writes). -/
def add_document (size overlap : Nat) (f : PFile) (metadata : Dict) (now : String)
    (uuid : Nat → String) :
    Option (Except ProcErr (List (String × Dict)) × List Batch) :=
  match process size overlap f metadata now with
  | none => none
  | some (Except.error e) => some (Except.error e, [])
  | some (Except.ok chunks) =>
    if chunks.isEmpty then some (Except.ok [], [])
    else
      let ids := (List.range chunks.length).map uuid
      let docs := chunks.map (fun c => c.content)
      let metas := chunks.map (fun c => c.metadata)
      some (Except.ok (ids.zip metas),
        (rangeStep chunks.length 100).map (fun i =>
          { ids := (ids.drop i).take 100,
            docs := (docs.drop i).take 100,
            metas := (metas.drop i).take 100 }))

/-- One retrieved chunk as consumed by `RAGService.generate_response`
(rag_service.py lines 132-165): the dict may lack the `content` or
`metadata` key (then the subscript raises `KeyError`), and `score` is the
already-formatted relevance (doc.get("score", 0) printed with .2f;
floating-point values are kept abstract as their rendering). -/
structure RDoc where
  content : Option (List Char)
  metadata : Option Dict
  score : Option (List Char)

/-- Rendering of a metadata value in an f-string. -/
def valText : Val → List Char
  | Val.str v => v.data
  | Val.nat v => (toString v).data

/-- Model of the source lookup doc["metadata"].get("source", "Unknown") (rag_service.py line 146). -/
def sourceOf (m : Dict) : List Char :=
  match dlookup m "source" with
  | some v => valText v
  | none => "Unknown".data

/-- The per-document block of the context f-string
(rag_service.py lines 145-147). -/
def docBlock (i : Nat) (score src content : List Char) : List Char :=
  "Document ".data ++ (toString (i + 1)).data ++ " (Relevance: ".data ++ score ++
    "):\nSource: ".data ++ src ++ "\nContent: ".data ++ content

/-- The `"\n\n".join(...)` generator of `RAGService.generate_response`
(rag_service.py lines 144-149), consumed document by document: the first
document lacking `metadata` or `content` raises `KeyError` (metadata is
subscripted before content in the f-string). -/
def format_context : Nat → List RDoc → Except String (List Char)
  | _, [] => Except.ok []
  | i, d :: rest =>
    match d.metadata with
    | none => Except.error "KeyError: metadata"
    | some m =>
      match d.content with
      | none => Except.error "KeyError: content"
      | some c =>
        match format_context (i + 1) rest with
        | Except.error e => Except.error e
        | Except.ok restTxt =>
          Except.ok (docBlock i (d.score.getD "0.00".data) (sourceOf m) c ++
            (if rest.isEmpty then [] else "\n\n".data) ++ restTxt)

/-- The fixed apologetic message of the degraded response
(rag_service.py line 162). -/
def apologeticAnswer : List Char :=
  "I\x27m sorry, I encountered an error processing your request.".data

/-- The dict returned by `RAGService.generate_response`: the success shape
has `answer`, `sources`, `context`; the degraded shape has `answer`,
`sources`, `error`. -/
structure GenResult where
  answer : List Char
  sources : List Dict
  context : Option (List Char)
  error : Option String

/-- Model of `RAGService.generate_response` (rag_service.py lines 132-165): build
the context text; on success return the template answer with the source
metadata list; if building it raises, return the degraded dict with the
fixed apologetic answer, an empty sources list and the error descriptor.
Total by construction: no branch raises. -/
def generate_response (query : List Char) (ctx : List RDoc) : GenResult :=
  match format_context 0 ctx with
  | Except.ok t =>
    { answer := "I found ".data ++ (toString ctx.length).data ++
        " relevant documents regarding your question about \x27".data ++
        query ++ "\x27.".data,
      sources := ctx.map (fun d => d.metadata.getD []),
      context := some t,
      error := none }
  | Except.error e =>
    { answer := apologeticAnswer, sources := [], context := none, error := some e }

/-- The parallel sequences returned by `collection.query` for the single
query text (rag_service.py lines 103-108), with distances kept abstract as
their renderings. -/
structure QRes where
  ids : List String
  docs : List (List Char)
  metas : List Dict
  distances : Option (List (List Char))

/-- One formatted result of `RAGService.query`
(rag_service.py lines 112-123). -/
structure QDoc where
  id : String
  content : List Char
  metadata : Dict
  score : Option (List Char)
deriving DecidableEq

/-- The result-formatting loop of `RAGService.query`
(rag_service.py lines 111-123). -/
def formatResults (r : QRes) : List QDoc :=
  (List.range r.ids.length).map (fun i =>
    { id := r.ids.getD i "",
      content := r.docs.getD i [],
      metadata := r.metas.getD i [],
      score := match r.distances with
        | some ds => ds.get? i
        | none => none })

/-- Model of `RAGService.query` (rag_service.py lines 102-130): call the store,
format the results; `except ... raise` re-raises a store exception
unchanged.  The input is the outcome of the single `collection.query`
call. -/
def rag_query (store : Except String QRes) : Except String (List QDoc) :=
  match store with
  | Except.error e => Except.error e
  | Except.ok r => Except.ok (formatResults r)

/-- Outcomes of the two store calls inside `RAGService.delete_document`
(rag_service.py lines 176-193): `got` is `collection.get(where=...)`
(returning the matching chunk ids), `del_` is `collection.delete(ids=...)`. -/
structure DeleteStore where
  got : Except String (List String)
  del_ : Except String Unit

/-- Model of `RAGService.delete_document` (rag_service.py lines 167-193): delete all
chunks the store reports for the document id; `True` iff something was
deleted; any store exception is caught and turned into `False`. -/
def delete_document (st : DeleteStore) : Except String Bool :=
  match st.got with
  | Except.error _ => Except.ok false
  | Except.ok ids =>
    if ids.isEmpty then Except.ok false
    else
      match st.del_ with
      | Except.error _ => Except.ok false
      | Except.ok _ => Except.ok true

theorem reconstruct_cons (step : Nat) (c r0 : List Char) (rtail : List (List Char)) :
    reconstruct step (c :: r0 :: rtail) = c.take step ++ reconstruct step (r0 :: rtail) := rfl

theorem chunkLoop_succ (size overlap : Nat) (text : List Char) (fuel start : Nat) :
    chunkLoop size overlap text (fuel + 1) start =
      if start < text.length then
        if min (start + size) text.length = text.length then
          some [pySlice text start (min (start + size) text.length)]
        else
          match chunkLoop size overlap text fuel
              (min (start + size) text.length - min overlap (size / 2)) with
          | none => none
          | some rest => some (pySlice text start (min (start + size) text.length) :: rest)
      else
        some [] := rfl

theorem getLastD_cons_ne {α : Type} (a d : α) (l : List α) (h : l ≠ []) :
    (a :: l).getLastD d = l.getLastD d := by
  cases l with
  | nil => exact absurd rfl h
  | cons b t => simp [List.getLastD_cons]

theorem chunkLoop_sound (size overlap : Nat) (hs : 1 ≤ size) (text : List Char) :
    ∀ fuel start, start < text.length → text.length - start < fuel →
    ∃ cs, chunkLoop size overlap text fuel start = some cs ∧ cs ≠ [] ∧
      (∀ i, (h : i < cs.length) →
        cs.get ⟨i, h⟩ =
          pySlice text (start + i * advance size overlap)
            (start + i * advance size overlap + size)) ∧
      (∀ i, i + 1 < cs.length →
        start + i * advance size overlap + size < text.length) ∧
      start + (cs.length - 1) * advance size overlap < text.length ∧
      start + (cs.length - 1) * advance size overlap + (cs.getLastD []).length =
        text.length := by
  intro fuel
  induction fuel with
  | zero => intro start h1 h2; omega
  | succ fuel ih =>
    intro start h1 h2
    by_cases he : min (start + size) text.length = text.length
    · -- final iteration: the window reaches the end of the text
      have hL : text.length ≤ start + size := by omega
      have hdlen : (text.drop start).length = text.length - start := List.length_drop ..
      have hc : pySlice text start (min (start + size) text.length) = text.drop start := by
        rw [he]; unfold pySlice
        exact List.take_of_length_le (by omega)
      refine ⟨[pySlice text start (min (start + size) text.length)], ?_, by simp, ?_, ?_, ?_, ?_⟩
      · rw [chunkLoop_succ, if_pos h1, if_pos he]
      · intro i h
        have hi0 : i = 0 := by simpa using h
        subst hi0
        simp only [List.get, Nat.zero_mul, Nat.add_zero]
        rw [hc]
        unfold pySlice
        rw [List.take_of_length_le (by rw [List.length_drop]; omega)]
      · intro i h
        simp at h
      · simpa using h1
      · simp only [List.length_cons, List.length_nil, Nat.zero_add, Nat.sub_self,
          Nat.zero_mul, Nat.add_zero]
        rw [hc]
        show start + (List.drop start text).length = text.length
        rw [hdlen]
        omega
    · -- non-final iteration: full window, then recurse at the advanced start
      have hlt : start + size < text.length := by omega
      have hmin : min (start + size) text.length = start + size := by omega
      have hm : min overlap (size / 2) ≤ size := by omega
      have hadv1 : 1 ≤ advance size overlap := by unfold advance; omega
      have hadvle : advance size overlap ≤ size := by unfold advance; omega
      have harg : min (start + size) text.length - min overlap (size / 2) =
          start + advance size overlap := by unfold advance; omega
      have h1' : start + advance size overlap < text.length := by omega
      have h2' : text.length - (start + advance size overlap) < fuel := by omega
      obtain ⟨rest, hrest, hne, hget, hmid, hlast1, hlast2⟩ := ih (start + advance size overlap) h1' h2'
      have hrl : 1 ≤ rest.length := List.length_pos.mpr hne
      refine ⟨pySlice text start (min (start + size) text.length) :: rest, ?_, by simp, ?_, ?_, ?_, ?_⟩
      · rw [chunkLoop_succ, if_pos h1, if_neg he, harg, hrest]
      · intro i h
        match i with
        | 0 =>
          simp only [List.get, Nat.zero_mul, Nat.add_zero]
          rw [hmin]
        | Nat.succ j =>
          have hj : j < rest.length := by simpa using h
          have hpos : start + (j + 1) * advance size overlap =
              start + advance size overlap + j * advance size overlap := by
            rw [Nat.succ_mul]; omega
          have := hget j hj
          simp only [List.get]
          rw [hpos]
          exact this
      · intro i h
        match i with
        | 0 =>
          simpa using hlt
        | Nat.succ j =>
          have hj : j + 1 < rest.length := by simpa using h
          have hpos : start + (j + 1) * advance size overlap =
              start + advance size overlap + j * advance size overlap := by
            rw [Nat.succ_mul]; omega
          rw [hpos]
          exact hmid j hj
      · have hk : rest.length - 1 + 1 = rest.length := by omega
        have hmul : rest.length * advance size overlap =
            (rest.length - 1) * advance size overlap + advance size overlap := by
          conv_lhs => rw [← hk]
          rw [Nat.succ_mul]
        simp only [List.length_cons, Nat.add_sub_cancel]
        omega
      · have hk : rest.length - 1 + 1 = rest.length := by omega
        have hmul : rest.length * advance size overlap =
            (rest.length - 1) * advance size overlap + advance size overlap := by
          conv_lhs => rw [← hk]
          rw [Nat.succ_mul]
        simp only [List.length_cons, Nat.add_sub_cancel]
        rw [getLastD_cons_ne _ _ _ hne]
        omega

theorem chunkLoop_reconstruct (size overlap : Nat) (hs : 1 ≤ size) (text : List Char) :
    ∀ fuel start, start < text.length → text.length - start < fuel →
    ∀ cs, chunkLoop size overlap text fuel start = some cs →
    reconstruct (advance size overlap) cs = text.drop start := by
  intro fuel
  induction fuel with
  | zero => intro start h1 h2; omega
  | succ fuel ih =>
    intro start h1 h2 cs hcs
    rw [chunkLoop_succ, if_pos h1] at hcs
    by_cases he : min (start + size) text.length = text.length
    · rw [if_pos he] at hcs
      injection hcs with hcs
      subst hcs
      show pySlice text start (min (start + size) text.length) = text.drop start
      rw [he]
      unfold pySlice
      exact List.take_of_length_le (by rw [List.length_drop])
    · rw [if_neg he] at hcs
      have hlt : start + size < text.length := by omega
      have hmin : min (start + size) text.length = start + size := by omega
      have hadvle : advance size overlap ≤ size := by unfold advance; omega
      have hadv1 : 1 ≤ advance size overlap := by unfold advance; omega
      have harg : min (start + size) text.length - min overlap (size / 2) =
          start + advance size overlap := by unfold advance; omega
      have h1' : start + advance size overlap < text.length := by omega
      have h2' : text.length - (start + advance size overlap) < fuel := by omega
      rw [harg] at hcs
      cases hrec : chunkLoop size overlap text fuel (start + advance size overlap) with
      | none => rw [hrec] at hcs; cases hcs
      | some rest =>
        rw [hrec] at hcs
        injection hcs with hcs
        subst hcs
        obtain ⟨cs', hcs', hne', _⟩ :=
          chunkLoop_sound size overlap hs text fuel (start + advance size overlap) h1' h2'
        rw [hrec] at hcs'
        injection hcs' with hcs'
        subst hcs'
        have hih := ih (start + advance size overlap) h1' h2' rest hrec
        obtain ⟨r0, rtail, rfl⟩ : ∃ r0 rtail, rest = r0 :: rtail := by
          cases rest with
          | nil => exact absurd rfl hne'
          | cons r0 rtail => exact ⟨r0, rtail, rfl⟩
        rw [reconstruct_cons, hih]
        have hc : pySlice text start (min (start + size) text.length) =
            (text.drop start).take size := by
          rw [hmin]
          unfold pySlice
          rw [Nat.add_sub_cancel_left]
        rw [hc, List.take_take, min_eq_left hadvle, ← List.drop_drop]
        exact List.take_append_drop _ _

theorem chunkLoop_zero_none : ∀ fuel, chunkLoop 0 0 ['a'] fuel 0 = none := by
  intro fuel
  induction fuel with
  | zero => rfl
  | succ fuel ih =>
    rw [chunkLoop_succ]
    simp [ih]

theorem isEmpty_false_of_ne_nil {α : Type} {l : List α} (h : l ≠ []) : l.isEmpty = false := by
  cases l with
  | nil => exact absurd rfl h
  | cons a t => rfl

theorem chunk_text_eq_loop {size overlap : Nat} {text : List Char} (h : text ≠ []) :
    chunk_text size overlap text = chunkLoop size overlap text (text.length + 1) 0 := by
  unfold chunk_text
  rw [isEmpty_false_of_ne_nil h]
  rfl

/-- C1 (amended to chunk sizes ≥ 1): for every text, chunk size ≥ 1 and overlap,
`_chunk_text` returns `[]` on empty text; otherwise it returns the windows
`text[i*s : i*s + size]` for step `s = size - min(overlap, size // 2)`, each
window of length exactly `size` except the last, which is nonempty and ends
exactly at the end of the text, and no window before the last reaches the end
of the text (the loop stops at the window that reaches the end). -/
theorem chunk_text_windows (size overlap : Nat) (text : List Char) (hs : 1 ≤ size) :
    (text = [] → chunk_text size overlap text = some []) ∧
    (text ≠ [] → ∃ cs, chunk_text size overlap text = some cs ∧ cs ≠ [] ∧
      (∀ i, (h : i < cs.length) →
        cs.get ⟨i, h⟩ =
          pySlice text (i * advance size overlap) (i * advance size overlap + size)) ∧
      (∀ i, (h : i < cs.length) → i + 1 < cs.length →
        (cs.get ⟨i, h⟩).length = size ∧
        i * advance size overlap + size < text.length) ∧
      cs.getLastD [] ≠ [] ∧
      (cs.length - 1) * advance size overlap + (cs.getLastD []).length = text.length) := by
  constructor
  · intro h; subst h; rfl
  · intro hne
    have hlen : 0 < text.length := List.length_pos.mpr hne
    obtain ⟨cs, hcs, hne', hget, hmid, hlast1, hlast2⟩ :=
      chunkLoop_sound size overlap hs text (text.length + 1) 0 hlen (by omega)
    refine ⟨cs, ?_, hne', ?_, ?_, ?_, ?_⟩
    · rw [chunk_text_eq_loop hne]; exact hcs
    · intro i h
      have := hget i h
      simpa using this
    · intro i h hi
      refine ⟨?_, by have := hmid i hi; simpa using this⟩
      have hg := hget i h
      have hm := hmid i hi
      rw [hg]
      unfold pySlice
      rw [List.length_take, List.length_drop]
      omega
    · have hpos : 0 < (cs.getLastD []).length := by omega
      exact List.length_pos.mp hpos
    · simpa using hlast2

/-- C1 witness: concrete run of the amended claim at size 3, overlap 1. -/
theorem chunk_text_windows_witness :
    chunk_text 3 1 "abcdef".data = some ["abc".data, "cde".data, "ef".data] ∧
    ∃ cs, chunk_text 3 1 "abcdef".data = some cs ∧ cs ≠ [] := by
  refine ⟨by decide, ?_⟩
  obtain ⟨cs, h1, h2, _⟩ := (chunk_text_windows 3 1 "abcdef".data (by decide)).2 (by decide)
  exact ⟨cs, h1, h2⟩

/-- C1 counterexample: with chunk size 0 and nonempty text the loop of
`_chunk_text` never terminates (no amount of fuel makes it return), so the
chunker does not return the claimed windows for every chunk size. -/
theorem chunk_text_size_zero_diverges :
    chunk_text 0 0 ['a'] = none ∧ ¬ ChunkTerm 0 0 ['a'] := by
  refine ⟨by decide, ?_⟩
  rintro ⟨fuel, hf⟩
  rw [chunkLoop_zero_none fuel] at hf
  cases hf

/-- C2: for `size > overlap ≥ 0` (hence `overlap ≤ size`), chunking `text`
and then concatenating the first `size - min(overlap, size // 2)` characters
of every chunk but the last, followed by the whole last chunk, reconstructs
`text` exactly. -/
theorem chunk_text_reconstruct (size overlap : Nat) (text : List Char)
    (hov : overlap < size) :
    ∃ cs, chunk_text size overlap text = some cs ∧
      reconstruct (advance size overlap) cs = text := by
  have hs : 1 ≤ size := by omega
  by_cases hempty : text = []
  · subst hempty; exact ⟨[], rfl, rfl⟩
  · have hlen : 0 < text.length := List.length_pos.mpr hempty
    obtain ⟨cs, hcs, _⟩ :=
      chunkLoop_sound size overlap hs text (text.length + 1) 0 hlen (by omega)
    refine ⟨cs, ?_, ?_⟩
    · rw [chunk_text_eq_loop hempty]; exact hcs
    · have := chunkLoop_reconstruct size overlap hs text (text.length + 1) 0 hlen
        (by omega) cs hcs
      simpa using this

/-- C2 witness: concrete reconstruction at size 3, overlap 1, text "abcdef". -/
theorem chunk_text_reconstruct_witness :
    ∃ cs, chunk_text 3 1 "abcdef".data = some cs ∧
      reconstruct (advance 3 1) cs = "abcdef".data :=
  chunk_text_reconstruct 3 1 "abcdef".data (by decide)

/-- C3: for every text, chunk size ≥ 1 and overlap, the chunking loop
terminates (within `text.length + 1` iterations), because the per-iteration
advancement `size - min(overlap, size // 2)` is at least
`size - size // 2 ≥ 1`, never zero. -/
theorem chunk_text_terminates (size overlap : Nat) (text : List Char) (hs : 1 ≤ size) :
    (chunk_text size overlap text).isSome = true ∧
    size - size / 2 ≤ advance size overlap ∧
    1 ≤ advance size overlap := by
  refine ⟨?_, by unfold advance; omega, by unfold advance; omega⟩
  by_cases hempty : text = []
  · subst hempty; rfl
  · have hlen : 0 < text.length := List.length_pos.mpr hempty
    obtain ⟨cs, hcs, _⟩ :=
      chunkLoop_sound size overlap hs text (text.length + 1) 0 hlen (by omega)
    rw [chunk_text_eq_loop hempty, hcs]
    rfl

/-- C3 witness: concrete termination at size 1000, overlap 200 (the
processor defaults) on a short text. -/
theorem chunk_text_terminates_witness :
    (chunk_text 1000 200 "hello world".data).isSome = true ∧
    1 ≤ advance 1000 200 :=
  ⟨(chunk_text_terminates 1000 200 "hello world".data (by decide)).1,
   (chunk_text_terminates 1000 200 "hello world".data (by decide)).2.2⟩

theorem stripChars_eq_nil_iff (s : List Char) :
    stripChars s = [] ↔ ∀ c ∈ s, isWS c := by
  unfold stripChars
  rw [List.reverse_eq_nil_iff, List.dropWhile_eq_nil_iff]
  constructor
  · intro h c hc
    have hsplit := List.takeWhile_append_dropWhile isWS s
    rw [← hsplit] at hc
    rcases List.mem_append.mp hc with h1 | h2
    · exact List.mem_takeWhile_imp h1
    · exact h c (List.mem_reverse.mpr h2)
  · intro h c hc
    have hmem : c ∈ s.dropWhile isWS := List.mem_reverse.mp hc
    have hsplit := List.takeWhile_append_dropWhile isWS s
    exact h c (by rw [← hsplit]; exact List.mem_append.mpr (Or.inr hmem))

theorem ws_append {a b : List Char} (ha : ∀ c ∈ a, isWS c) (hb : ∀ c ∈ b, isWS c) :
    ∀ c ∈ a ++ b, isWS c := by
  intro c hc
  rcases List.mem_append.mp hc with h | h
  exacts [ha c h, hb c h]

/-- C4: for every existing file whose lowered extension is not in the
supported set, `add_document` fails with the UnsupportedFormat error and
the trace of `collection.add` calls is empty: the error arises in
`process` before any chunking, so `add_document` never reaches a store
write. -/
theorem add_document_unsupported (size overlap : Nat) (f : PFile) (md : Dict)
    (now : String) (uuid : Nat → String)
    (hex : f.fexists = true)
    (hsup : lowerStr f.suffix ∉ supported_formats) :
    add_document size overlap f md now uuid =
      some (Except.error (ProcErr.unsupportedFormat (lowerStr f.suffix)), []) := by
  unfold add_document process
  rw [hex]
  simp [hsup]

/-- C4 witness: an existing `.exe` file is rejected with no store writes. -/
theorem add_document_unsupported_witness :
    add_document 1000 200 ⟨"tool.exe", "tool", ".exe", true, Except.ok "hello".data⟩
      [] "2024-01-01T00:00:00" (fun _ => "uuid-0") =
      some (Except.error (ProcErr.unsupportedFormat (lowerStr ".exe")), []) :=
  add_document_unsupported 1000 200
    ⟨"tool.exe", "tool", ".exe", true, Except.ok "hello".data⟩
    [] "2024-01-01T00:00:00" (fun _ => "uuid-0") rfl (by decide)

/-- C5: when all three tiers of `_process_pdf` yield only whitespace (a
raising tier contributes nothing), the function returns the
"unable to extract" sentinel.  The embedding is total by construction:
every combination of tier outcomes, raising ones included, produces a
string, matching the source where the handler of each tier catches its
exceptions and the final branch returns the sentinel instead of raising. -/
theorem process_pdf_sentinel (name : String) (t : PdfTiers)
    (h1 : ∀ s, t.fitz = Except.ok s → ∀ c ∈ s, isWS c)
    (h2 : ∀ s, t.pypdf = Except.ok s → ∀ c ∈ s, isWS c)
    (h3 : ∀ s, t.ocr = Except.ok s → ∀ c ∈ s, isWS c) :
    process_pdf name t = unableSentinel name := by
  unfold process_pdf
  have hb1 : ∀ c ∈ (match t.fitz with
      | Except.ok s => s
      | Except.error _ => ([] : List Char)), isWS c := by
    cases hf : t.fitz with
    | ok s => simpa using h1 s hf
    | error e => simp
  have hb2 : ∀ c ∈ (match t.pypdf with
      | Except.ok s =>
        (match t.fitz with | Except.ok s' => s' | Except.error _ => ([] : List Char)) ++ s
      | Except.error _ =>
        (match t.fitz with | Except.ok s' => s' | Except.error _ => ([] : List Char))), isWS c := by
    cases hf : t.pypdf with
    | ok s => exact ws_append hb1 (h2 s hf)
    | error e => exact hb1
  rw [if_neg (by simp [(stripChars_eq_nil_iff _).mpr hb1])]
  have hb3 : ∀ c ∈ (if stripChars (match t.pypdf with
      | Except.ok s =>
        (match t.fitz with | Except.ok s' => s' | Except.error _ => ([] : List Char)) ++ s
      | Except.error _ =>
        (match t.fitz with | Except.ok s' => s' | Except.error _ => ([] : List Char))) = [] then
        match t.ocr with
        | Except.ok s =>
          (match t.pypdf with
            | Except.ok s' =>
              (match t.fitz with | Except.ok s'' => s'' | Except.error _ => ([] : List Char)) ++ s'
            | Except.error _ =>
              (match t.fitz with | Except.ok s'' => s'' | Except.error _ => ([] : List Char))) ++ s
        | Except.error _ =>
          match t.pypdf with
          | Except.ok s' =>
            (match t.fitz with | Except.ok s'' => s'' | Except.error _ => ([] : List Char)) ++ s'
          | Except.error _ =>
            (match t.fitz with | Except.ok s'' => s'' | Except.error _ => ([] : List Char))
      else
        match t.pypdf with
        | Except.ok s =>
          (match t.fitz with | Except.ok s' => s' | Except.error _ => ([] : List Char)) ++ s
        | Except.error _ =>
          (match t.fitz with | Except.ok s' => s' | Except.error _ => ([] : List Char))), isWS c := by
    by_cases hc2 : stripChars (match t.pypdf with
      | Except.ok s =>
        (match t.fitz with | Except.ok s' => s' | Except.error _ => ([] : List Char)) ++ s
      | Except.error _ =>
        (match t.fitz with | Except.ok s' => s' | Except.error _ => ([] : List Char))) = []
    · rw [if_pos hc2]
      cases ho : t.ocr with
      | ok s => exact ws_append hb2 (h3 s ho)
      | error e => exact hb2
    · rw [if_neg hc2]
      exact hb2
  rw [if_pos ((stripChars_eq_nil_iff _).mpr hb3)]

/-- C5 witness: a PDF where every tier raises (e.g. a zero-byte file)
degrades to the sentinel. -/
theorem process_pdf_sentinel_witness :
    process_pdf "empty.pdf"
      ⟨Except.error "fitz failure", Except.error "pypdf failure",
        Except.error "ocr failure"⟩ = unableSentinel "empty.pdf" :=
  process_pdf_sentinel "empty.pdf"
    ⟨Except.error "fitz failure", Except.error "pypdf failure", Except.error "ocr failure"⟩
    (fun s h => by cases h) (fun s h => by cases h) (fun s h => by cases h)

/-- C6 counterexample: when pandas parsing fails and the raw re-read also
raises, `_process_csv` re-raises the original pandas exception
(`raise e`, document_processor.py line 445), so the fallback path is not
exception-free for every input on which structured parsing fails. -/
theorem process_csv_reraises :
    process_csv ⟨Except.error "pandas parse failure", Except.error "read failure"⟩ =
      Except.error "pandas parse failure" := rfl

/-- C6 (amended): if structured parsing fails and the raw file read
succeeds, `_process_csv` returns the raw contents prefixed with the
raw-content marker without raising; only when the raw read itself raises
is the original parsing exception re-raised. -/
theorem process_csv_fallback (c : CsvInput) (e : String) (content : List Char)
    (hp : c.parsed = Except.error e) (hr : c.raw = Except.ok content) :
    process_csv c = Except.ok (rawCsvMarker ++ content) := by
  unfold process_csv
  rw [hp, hr]

/-- C6 witness: a failing parse with a readable file yields the marked raw
content. -/
theorem process_csv_fallback_witness :
    process_csv ⟨Except.error "pandas parse failure", Except.ok "a,b\n1,2".data⟩ =
      Except.ok (rawCsvMarker ++ "a,b\n1,2".data) :=
  process_csv_fallback
    ⟨Except.error "pandas parse failure", Except.ok "a,b\n1,2".data⟩
    "pandas parse failure" "a,b\n1,2".data rfl rfl

/-- C7 counterexample: when `docx2txt.process` raises, `_process_docx`
returns through the python-docx fallback of the outer handler while the scratch
directory created by `tempfile.mkdtemp()` still exists — the temporary
directory is not removed on this exit path. -/
theorem process_docx_leak :
    (process_docx ⟨Except.error "docx2txt failure", [],
      Except.ok "fallback paragraphs".data⟩).2 = true := rfl

/-- C7 (amended): the scratch directory is removed exactly on the paths
where the bulk extractor `docx2txt.process` returns (success, including
the empty-text python-docx fallback); on the path where it raises, the
outer handler returns or re-raises without removing the directory. -/
theorem process_docx_cleanup (r : DocxRun) :
    (process_docx r).2 =
      (match r.bulk with
       | Except.ok _ => false
       | Except.error _ => true) := by
  unfold process_docx
  cases r.bulk <;> rfl

/-- C8: whenever building the context text raises (a retrieved dict lacks
the `content` or `metadata` key), `generate_response` returns the degraded
result: the fixed apologetic answer, an empty sources list and the error
descriptor.  The embedding is total, matching the blanket handler in the
source: no input makes `generate_response` raise. -/
theorem generate_response_degraded (q : List Char) (ctx : List RDoc) (e : String)
    (hf : format_context 0 ctx = Except.error e) :
    generate_response q ctx =
      { answer := apologeticAnswer, sources := [], context := none,
        error := some e } := by
  unfold generate_response
  rw [hf]

/-- C8 witness: a retrieved dict with no `metadata` key triggers the
degraded response. -/
theorem generate_response_degraded_witness :
    generate_response "what is the fire rating?".data [⟨none, none, none⟩] =
      { answer := apologeticAnswer, sources := [], context := none,
        error := some "KeyError: metadata" } :=
  generate_response_degraded "what is the fire rating?".data
    [⟨none, none, none⟩] "KeyError: metadata" rfl

/-- C9 counterexample: a store failure inside `delete_document` (here the
`collection.get` call raising) is caught by its handler and surfaced as a
plain `False` return, not as the exception of the store — delete does not
propagate store errors. -/
theorem delete_document_swallows :
    delete_document ⟨Except.error "store failure", Except.ok ()⟩ = Except.ok false ∧
      delete_document ⟨Except.error "store failure", Except.ok ()⟩ ≠
        Except.error "store failure" := by
  refine ⟨rfl, ?_⟩
  intro h
  exact Except.noConfusion h

/-- C9 (amended): `query` re-raises a store exception unchanged (its
handler ends in a bare `raise`, and there is no retry: the store is called
once); `delete_document` catches every store exception — whether from
`collection.get` or from `collection.delete` — and returns `False`
instead of propagating it. -/
theorem store_error_propagation (e : String) (st : DeleteStore) :
    rag_query (Except.error e) = Except.error e ∧
    (st.got = Except.error e → delete_document st = Except.ok false) ∧
    (∀ ids, st.got = Except.ok ids → ids.isEmpty = false →
      st.del_ = Except.error e → delete_document st = Except.ok false) := by
  refine ⟨rfl, ?_, ?_⟩
  · intro h
    unfold delete_document
    rw [h]
  · intro ids h1 h2 h3
    simp [delete_document, h1, h2, h3]

/-- C9 witness: concrete store failures in query (propagated) and delete
(converted to `False`). -/
theorem store_error_propagation_witness :
    rag_query (Except.error "store failure") = Except.error "store failure" ∧
    delete_document ⟨Except.error "store failure", Except.ok ()⟩ = Except.ok false :=
  ⟨(store_error_propagation "store failure"
      ⟨Except.error "store failure", Except.ok ()⟩).1,
   (store_error_propagation "store failure"
      ⟨Except.error "store failure", Except.ok ()⟩).2.1 rfl⟩

theorem dlookup_map_update (d : Dict) (k : String) (v : Val)
    (h : (dlookup d k).isSome = true) :
    dlookup (d.map (fun p => if p.1 = k then (k, v) else p)) k = some v := by
  induction d with
  | nil => simp [dlookup] at h
  | cons p rest ih =>
    by_cases hp : p.1 = k
    · simp only [List.map_cons, if_pos hp]
      show dlookup ((k, v) :: rest.map _) k = some v
      unfold dlookup
      rw [if_pos rfl]
    · have h' : (dlookup rest k).isSome = true := by
        simpa [dlookup, hp] using h
      simp only [List.map_cons, if_neg hp]
      unfold dlookup
      rw [if_neg hp]
      exact ih h'

theorem dlookup_map_update_ne (d : Dict) (k key : String) (v : Val) (hne : key ≠ k) :
    dlookup (d.map (fun p => if p.1 = k then (k, v) else p)) key = dlookup d key := by
  induction d with
  | nil => rfl
  | cons p rest ih =>
    by_cases hp : p.1 = k
    · simp only [List.map_cons, if_pos hp]
      show dlookup ((k, v) :: rest.map _) key = dlookup (p :: rest) key
      unfold dlookup
      rw [if_neg (fun hk => hne hk.symm), if_neg (fun hk => hne (hp ▸ hk).symm)]
      exact ih
    · simp only [List.map_cons, if_neg hp]
      unfold dlookup
      by_cases hpk : p.1 = key
      · rw [if_pos hpk, if_pos hpk]
      · rw [if_neg hpk, if_neg hpk]
        exact ih

theorem dlookup_append_single_ne (d : Dict) (k key : String) (v : Val) (hne : key ≠ k) :
    dlookup (d ++ [(k, v)]) key = dlookup d key := by
  induction d with
  | nil =>
    show dlookup [(k, v)] key = none
    unfold dlookup
    rw [if_neg (fun hk => hne hk.symm)]
    rfl
  | cons p rest ih =>
    simp only [List.cons_append]
    unfold dlookup
    by_cases hpk : p.1 = key
    · rw [if_pos hpk, if_pos hpk]
    · rw [if_neg hpk, if_neg hpk]
      exact ih

theorem dlookup_append_single_self (d : Dict) (k : String) (v : Val)
    (h : dlookup d k = none) :
    dlookup (d ++ [(k, v)]) k = some v := by
  induction d with
  | nil => simp [dlookup]
  | cons p rest ih =>
    have hp : ¬ p.1 = k := by
      intro hk
      unfold dlookup at h
      rw [if_pos hk] at h
      cases h
    have hr : dlookup rest k = none := by
      unfold dlookup at h
      rwa [if_neg hp] at h
    simp only [List.cons_append]
    unfold dlookup
    rw [if_neg hp]
    exact ih hr

theorem dlookup_dinsert_self (d : Dict) (k : String) (v : Val) :
    dlookup (dinsert d k v) k = some v := by
  unfold dinsert
  by_cases h : (dlookup d k).isSome = true
  · rw [if_pos h]
    exact dlookup_map_update d k v h
  · rw [if_neg h]
    have hnone : dlookup d k = none := by
      cases hh : dlookup d k with
      | none => rfl
      | some w => rw [hh] at h; simp at h
    exact dlookup_append_single_self d k v hnone

theorem dlookup_dinsert_ne (d : Dict) (k key : String) (v : Val) (hne : key ≠ k) :
    dlookup (dinsert d k v) key = dlookup d key := by
  unfold dinsert
  by_cases h : (dlookup d k).isSome = true
  · rw [if_pos h]
    exact dlookup_map_update_ne d k key v hne
  · rw [if_neg h]
    exact dlookup_append_single_ne d k key v hne

theorem dlookup_eq_none_of_not_mem (d : Dict) (key : String)
    (h : key ∉ d.map Prod.fst) : dlookup d key = none := by
  induction d with
  | nil => rfl
  | cons p rest ih =>
    simp only [List.map_cons, List.mem_cons, not_or] at h
    obtain ⟨h1, h2⟩ := h
    unfold dlookup
    rw [if_neg (fun hk => h1 hk.symm)]
    exact ih h2

theorem dlookup_dextend_none (d kvs : Dict) (key : String)
    (h : dlookup kvs key = none) :
    dlookup (dextend d kvs) key = dlookup d key := by
  induction kvs generalizing d with
  | nil => rfl
  | cons p rest ih =>
    have hp : ¬ p.1 = key := by
      intro hk
      unfold dlookup at h
      rw [if_pos hk] at h
      cases h
    have hr : dlookup rest key = none := by
      unfold dlookup at h
      rwa [if_neg hp] at h
    show dlookup (dextend (dinsert d p.1 p.2) rest) key = dlookup d key
    rw [ih (dinsert d p.1 p.2) hr, dlookup_dinsert_ne _ _ _ _ (fun hk => hp hk.symm)]

theorem dlookup_dextend_some (d kvs : Dict) (key : String) (v : Val)
    (hnd : (kvs.map Prod.fst).Nodup)
    (h : dlookup kvs key = some v) :
    dlookup (dextend d kvs) key = some v := by
  induction kvs generalizing d with
  | nil => cases h
  | cons p rest ih =>
    have hnd' : (rest.map Prod.fst).Nodup := by
      rw [List.map_cons, List.nodup_cons] at hnd
      exact hnd.2
    by_cases hp : p.1 = key
    · have hv : p.2 = v := by
        unfold dlookup at h
        rw [if_pos hp] at h
        injection h
      have hnotin : p.1 ∉ rest.map Prod.fst := by
        rw [List.map_cons, List.nodup_cons] at hnd
        exact hnd.1
      have hkey : dlookup rest key = none :=
        dlookup_eq_none_of_not_mem rest key (hp ▸ hnotin)
      show dlookup (dextend (dinsert d p.1 p.2) rest) key = some v
      rw [dlookup_dextend_none _ _ _ hkey, hp, hv]
      exact dlookup_dinsert_self d key v
    · have hr : dlookup rest key = some v := by
        unfold dlookup at h
        rwa [if_neg hp] at h
      exact ih (dinsert d p.1 p.2) hnd' hr

theorem buildChunks_length (stem : String) (base : Dict) (total : Nat) :
    ∀ i0 chunks, (buildChunks stem base total i0 chunks).length = chunks.length := by
  intro i0 chunks
  induction chunks generalizing i0 with
  | nil => rfl
  | cons c rest ih => simp [buildChunks, ih]

theorem buildChunks_get_metadata (stem : String) (base : Dict) (total : Nat) :
    ∀ chunks i0 j (h : j < (buildChunks stem base total i0 chunks).length),
      ((buildChunks stem base total i0 chunks).get ⟨j, h⟩).metadata =
        chunkMeta stem base total (i0 + j) := by
  intro chunks
  induction chunks with
  | nil => intro i0 j h; simp [buildChunks] at h
  | cons c rest ih =>
    intro i0 j h
    match j with
    | 0 => simp [buildChunks, List.get]
    | Nat.succ jj =>
      have hh : jj < (buildChunks stem base total (i0 + 1) rest).length := by
        simpa [buildChunks] using h
      have hrec := ih (i0 + 1) jj hh
      show ((buildChunks stem base total (i0 + 1) rest).get ⟨jj, hh⟩).metadata = _
      rw [hrec]
      congr 1
      omega

theorem dlookup_cons_eq (k : String) (v : Val) (rest : Dict) :
    dlookup ((k, v) :: rest) k = some v := by
  unfold dlookup
  rw [if_pos rfl]

theorem dlookup_cons_ne (p : String × Val) (rest : Dict) (key : String)
    (h : ¬ p.1 = key) :
    dlookup (p :: rest) key = dlookup rest key := by
  show (if p.1 = key then some p.2 else dlookup rest key) = dlookup rest key
  rw [if_neg h]

theorem chunkMeta_chunk_id (stem : String) (base : Dict) (total i : Nat) :
    dlookup (chunkMeta stem base total i) "chunk_id" =
      some (Val.str (stem ++ "_" ++ toString i)) := by
  unfold chunkMeta
  rw [dlookup_dinsert_ne _ _ _ _ (by decide), dlookup_dinsert_ne _ _ _ _ (by decide),
    dlookup_dinsert_self]

theorem chunkMeta_chunk_index (stem : String) (base : Dict) (total i : Nat) :
    dlookup (chunkMeta stem base total i) "chunk_index" = some (Val.nat i) := by
  unfold chunkMeta
  rw [dlookup_dinsert_ne _ _ _ _ (by decide), dlookup_dinsert_self]

theorem chunkMeta_total_chunks (stem : String) (base : Dict) (total i : Nat) :
    dlookup (chunkMeta stem base total i) "total_chunks" = some (Val.nat total) := by
  unfold chunkMeta
  rw [dlookup_dinsert_self]

theorem chunkMeta_other (stem : String) (base : Dict) (total i : Nat) (key : String)
    (h1 : key ≠ "chunk_id") (h2 : key ≠ "chunk_index") (h3 : key ≠ "total_chunks") :
    dlookup (chunkMeta stem base total i) key = dlookup base key := by
  unfold chunkMeta
  rw [dlookup_dinsert_ne _ _ _ _ h3, dlookup_dinsert_ne _ _ _ _ h2,
    dlookup_dinsert_ne _ _ _ _ h1]

/-- C10: in every chunk record of a successful `process` run, the
pipeline-computed fields `chunk_id`, `chunk_index` and `total_chunks` hold
the values computed by the pipeline even when the caller-supplied metadata dict contains
keys of those names (they are written after the caller dict is spliced
in), whereas a caller-supplied `source`, `file_type` or `processing_date`
key overrides the base value of the pipeline for that key (the caller dict is
spliced in after the base values). -/
theorem process_metadata_precedence (size overlap : Nat) (f : PFile) (md : Dict)
    (now : String) (res : List ChunkRec)
    (hnd : (md.map Prod.fst).Nodup)
    (hp : process size overlap f md now = some (Except.ok res)) :
    ∀ j, (h : j < res.length) →
      (dlookup ((res.get ⟨j, h⟩).metadata) "chunk_id" =
          some (Val.str (f.stem ++ "_" ++ toString j)) ∧
        dlookup ((res.get ⟨j, h⟩).metadata) "chunk_index" = some (Val.nat j) ∧
        dlookup ((res.get ⟨j, h⟩).metadata) "total_chunks" =
          some (Val.nat res.length)) ∧
      ((∀ v, dlookup md "source" = some v →
          dlookup ((res.get ⟨j, h⟩).metadata) "source" = some v) ∧
        (dlookup md "source" = none →
          dlookup ((res.get ⟨j, h⟩).metadata) "source" = some (Val.str f.name))) ∧
      ((∀ v, dlookup md "file_type" = some v →
          dlookup ((res.get ⟨j, h⟩).metadata) "file_type" = some v) ∧
        (dlookup md "file_type" = none →
          dlookup ((res.get ⟨j, h⟩).metadata) "file_type" =
            some (Val.str (dropDot (lowerStr f.suffix))))) ∧
      ((∀ v, dlookup md "processing_date" = some v →
          dlookup ((res.get ⟨j, h⟩).metadata) "processing_date" = some v) ∧
        (dlookup md "processing_date" = none →
          dlookup ((res.get ⟨j, h⟩).metadata) "processing_date" =
            some (Val.str now))) := by
  unfold process at hp
  by_cases hex : f.fexists = false
  · rw [if_pos hex] at hp
    exact absurd hp (by simp)
  · rw [if_neg hex] at hp
    by_cases hsup : lowerStr f.suffix ∈ supported_formats
    · rw [if_pos hsup] at hp
      cases hext : f.extract with
      | error e =>
        rw [hext] at hp
        exact absurd hp (by simp)
      | ok text =>
        rw [hext] at hp
        have hp2 : (match chunk_text size overlap text with
            | none => (none : Option (Except ProcErr (List ChunkRec)))
            | some chunks =>
              some (Except.ok (buildChunks f.stem
                (dextend [("source", Val.str f.name),
                  ("file_type", Val.str (dropDot (lowerStr f.suffix))),
                  ("processing_date", Val.str now)] md)
                chunks.length 0 chunks))) = some (Except.ok res) := hp
        clear hp
        cases hct : chunk_text size overlap text with
        | none =>
          rw [hct] at hp2
          exact absurd hp2 (by simp)
        | some chunks =>
          rw [hct] at hp2
          injection hp2 with hp1
          injection hp1 with hp2
          subst hp2
          intro j h
          have hlen := buildChunks_length f.stem
            (dextend [("source", Val.str f.name),
              ("file_type", Val.str (dropDot (lowerStr f.suffix))),
              ("processing_date", Val.str now)] md) chunks.length 0 chunks
          have hmeta := buildChunks_get_metadata f.stem
            (dextend [("source", Val.str f.name),
              ("file_type", Val.str (dropDot (lowerStr f.suffix))),
              ("processing_date", Val.str now)] md) chunks.length chunks 0 j h
          rw [Nat.zero_add] at hmeta
          refine ⟨⟨?_, ?_, ?_⟩, ⟨?_, ?_⟩, ⟨?_, ?_⟩, ?_, ?_⟩
          · rw [hmeta, chunkMeta_chunk_id]
          · rw [hmeta, chunkMeta_chunk_index]
          · rw [hmeta, chunkMeta_total_chunks, hlen]
          · intro v hv
            rw [hmeta, chunkMeta_other _ _ _ _ _ (by decide) (by decide) (by decide)]
            exact dlookup_dextend_some _ _ _ _ hnd hv
          · intro hv
            rw [hmeta, chunkMeta_other _ _ _ _ _ (by decide) (by decide) (by decide),
              dlookup_dextend_none _ _ _ hv]
            exact dlookup_cons_eq _ _ _
          · intro v hv
            rw [hmeta, chunkMeta_other _ _ _ _ _ (by decide) (by decide) (by decide)]
            exact dlookup_dextend_some _ _ _ _ hnd hv
          · intro hv
            rw [hmeta, chunkMeta_other _ _ _ _ _ (by decide) (by decide) (by decide),
              dlookup_dextend_none _ _ _ hv,
              dlookup_cons_ne _ _ _ (show ¬ ("source" : String) = "file_type" by decide)]
            exact dlookup_cons_eq _ _ _
          · intro v hv
            rw [hmeta, chunkMeta_other _ _ _ _ _ (by decide) (by decide) (by decide)]
            exact dlookup_dextend_some _ _ _ _ hnd hv
          · intro hv
            rw [hmeta, chunkMeta_other _ _ _ _ _ (by decide) (by decide) (by decide),
              dlookup_dextend_none _ _ _ hv,
              dlookup_cons_ne _ _ _ (show ¬ ("source" : String) = "processing_date" by decide),
              dlookup_cons_ne _ _ _ (show ¬ ("file_type" : String) = "processing_date" by decide)]
            exact dlookup_cons_eq _ _ _
    · rw [if_neg hsup] at hp
      exact absurd hp (by simp)

/-- C10 witness: a concrete `.txt` file processed with caller metadata that
tries to set both `source` (allowed to override) and `chunk_id` (overridden
by the pipeline). -/
theorem process_metadata_precedence_witness :
    ∃ res, process 5 2 ⟨"a.txt", "a", ".txt", true, Except.ok "ab".data⟩
        [("source", Val.str "S"), ("chunk_id", Val.str "evil")] "T" =
        some (Except.ok res) ∧
      ∃ h0 : 0 < res.length,
        dlookup ((res.get ⟨0, h0⟩).metadata) "chunk_id" = some (Val.str "a_0") ∧
        dlookup ((res.get ⟨0, h0⟩).metadata) "source" = some (Val.str "S") := by
  have h := process_metadata_precedence 5 2 ⟨"a.txt", "a", ".txt", true, Except.ok "ab".data⟩
    [("source", Val.str "S"), ("chunk_id", Val.str "evil")] "T"
    [⟨"ab".data, [("source", Val.str "S"), ("file_type", Val.str "txt"),
      ("processing_date", Val.str "T"), ("chunk_id", Val.str "a_0"),
      ("chunk_index", Val.nat 0), ("total_chunks", Val.nat 1)]⟩]
    (by decide) rfl 0 (by decide)
  exact ⟨_, rfl, by decide, h.1.1, h.2.1.1 (Val.str "S") rfl⟩
